import Mathlib

/-!
Shallow embedding of `src/create_cards.py`.

The program renders text cards: `wrap_text` greedily wraps a string into
lines bounded by a pixel width, and `create_card_image` places each wrapped
line on a fixed-size canvas.  Text measurement (`draw.textbbox`) and font
loading (`ImageFont.truetype`) live in the external imaging library, so the
embedding takes them as parameters: a width measure and a height measure of
type `FontH → String → ℤ` (a bounding box difference is an integer number of
pixels), and a font-availability predicate `String → Bool` on file paths.
A rendered canvas is modelled by the list of draw calls issued to it, which
determines the pixels; a Python exception is modelled by `Option.none`.
-/

namespace CardMaker

/-- The whitespace characters that Python `str.split()` (no separator
argument) splits on, restricted to the ASCII range. -/
def isPySpace (c : Char) : Bool :=
  c = ' ' || c = '\t' || c = '\n' || c = '\r' || c = '\x0b' || c = '\x0c'

/-- Helper for `pySplit`: scan the characters, accumulating the current word
in reverse; maximal runs of non-whitespace become words. -/
def splitWordsAux : List Char → List Char → List String
  | [], cur => if cur = [] then [] else [String.mk cur.reverse]
  | c :: rest, cur =>
    if isPySpace c then
      (if cur = [] then splitWordsAux rest []
       else String.mk cur.reverse :: splitWordsAux rest [])
    else splitWordsAux rest (c :: cur)

/-- Python `text.split()`: the maximal whitespace-free runs of `text`, in
order; empty for an empty or all-whitespace string. -/
def pySplit (s : String) : List String := splitWordsAux s.data []

/-- Python `' '.join(l)`. -/
def joinSp : List String → String
  | [] => ""
  | [a] => a
  | a :: b :: rest => a ++ " " ++ joinSp (b :: rest)

/-- The loop of `wrap_text` (src/create_cards.py lines 99-110): `cur` is
`current_line`, `acc` is `wrapped_lines`; each word is tried on the current
line, and a line whose candidate exceeds `maxW` is closed. -/
def wrapAux (wdt : String → ℤ) (maxW : ℤ) : List String → List String → List String → List String
  | [], cur, acc => if cur ≠ [] then acc ++ [joinSp cur] else acc
  | word :: rest, cur, acc =>
    if wdt (joinSp (cur ++ [word])) ≤ maxW then wrapAux wdt maxW rest (cur ++ [word]) acc
    else wrapAux wdt maxW rest [word] (acc ++ [joinSp cur])

/-- `wrap_text` (src/create_cards.py lines 82-112), with the measured width
of a candidate string abstracted as `wdt`. -/
def wrap_text (wdt : String → ℤ) (maxW : ℤ) (text : String) : List String :=
  wrapAux wdt maxW (pySplit text) [] []

/-- The same wrapping loop, keeping each line as its list of words instead of
joining it; `wrap_text` is its image under `joinSp` (proved below). -/
def wrapGroups (wdt : String → ℤ) (maxW : ℤ) :
    List String → List String → List (List String) → List (List String)
  | [], cur, acc => if cur ≠ [] then acc ++ [cur] else acc
  | word :: rest, cur, acc =>
    if wdt (joinSp (cur ++ [word])) ≤ maxW then wrapGroups wdt maxW rest (cur ++ [word]) acc
    else wrapGroups wdt maxW rest [word] (acc ++ [cur])

/-- Python `int()` applied to a rational: truncation toward zero. -/
def pyTrunc (q : ℚ) : ℤ := q.num.tdiv q.den

/-- Python `str.lower()`, restricted to the ASCII range. -/
def strLower (s : String) : String := String.mk (s.data.map Char.toLower)

/-- A loaded font: either a truetype font at a path and size, or the
library's built-in default font (`ImageFont.load_default()`). -/
inductive FontH where
  | truetype (path : String) (size : ℤ)
  | defaultFont
deriving DecidableEq, Repr

/-- One row of the layout table (class `ImageFeature`, src/create_cards.py
lines 8-17).  `rotation` is stored as the raw string, exactly as line 35 of
the source stores `row['rotation']` without conversion. -/
structure ImageFeature where
  font : String
  font_size : ℤ
  text_color : String
  justification : String
  vertical_pos : ℚ
  element_name : String
  rotation : String
deriving DecidableEq, Repr

/-- The font path `f"C:\\Windows\\Fonts\\{feature.font}.ttf"` of line 186. -/
def fontPath (name : String) : String := "C:\\Windows\\Fonts\\" ++ name ++ ".ttf"

/-- Lines 187-190: try to load the truetype font; on failure (`IOError`)
fall back to the built-in default font. -/
def loadFont (avail : String → Bool) (feat : ImageFeature) : FontH :=
  if avail (fontPath feat.font) then FontH.truetype (fontPath feat.font) feat.font_size
  else FontH.defaultFont

/-- One call `draw.text((x, y), line, fill=..., font=...)` (line 221). -/
structure DrawOp where
  x : ℤ
  y : ℚ
  text : String
  color : String
  font : FontH
deriving DecidableEq, Repr

/-- The per-line x position (lines 212-218): lowercase the justification;
`center` is `(CARD_WIDTH - text_width) // 2` (Python floor division),
`right` is `CARD_WIDTH - text_width - MARGIN`, anything else is left
justified at `MARGIN`. -/
def justifyX (CW MG tw : ℤ) (justification : String) : ℤ :=
  let j := strLower justification
  if j = "center" then Int.fdiv (CW - tw) 2
  else if j = "right" then CW - tw - MG
  else MG

/-- The inner loop over wrapped lines (lines 209-224): draw each line at its
justified x and the running y, then advance y by `max_text_height * 1.1`. -/
def drawLines (wdt : String → ℤ) (CW MG : ℤ) (just colr : String) (fnt : FontH)
    (lineH : ℤ) : List String → ℚ → List DrawOp
  | [], _ => []
  | line :: rest, y =>
    ⟨justifyX CW MG (wdt line) just, y, line, colr, fnt⟩
      :: drawLines wdt CW MG just colr fnt lineH rest (y + (lineH : ℚ) * (11 / 10))

/-- Lines 192-224 for a non-empty text value, after the font is resolved:
wrap the text, take the maximum line height (`none` models the `ValueError`
Python's `max` raises on an empty sequence), compute the block's top from
the anchor `vertical_pos * CARD_HEIGHT` with `int()` truncation, and issue
one draw call per line. -/
def renderFeatureWithFont (wM hM : FontH → String → ℤ) (CW CH MG : ℤ) (vp : ℚ)
    (just colr : String) (fnt : FontH) (text : String) : Option (List DrawOp) :=
  let maxW := CW - 2 * MG
  let lines := wrap_text (wM fnt) maxW text
  ((lines.map (hM fnt)).max?).map fun (lineH : ℤ) =>
    let total : ℚ := (lines.length : ℚ) * (lineH : ℚ) * (11 / 10)
    let yStart : ℤ := pyTrunc (vp * (CH : ℚ) - total / 2)
    drawLines (wM fnt) CW MG just colr fnt lineH lines (yStart : ℚ)

/-- The body of the feature loop (lines 180-224): look the field up in the
card with default `""`, skip when falsy, otherwise load the font and render. -/
def renderFeature (wM hM : FontH → String → ℤ) (avail : String → Bool) (CW CH MG : ℤ)
    (card : String → Option String) (feat : ImageFeature) : Option (List DrawOp) :=
  let text := (card feat.element_name).getD ""
  if text = "" then some []
  else
    renderFeatureWithFont wM hM CW CH MG feat.vertical_pos feat.justification
      feat.text_color (loadFont avail feat) text

/-- Canvas width `750+75` (line 170). -/
def CARD_WIDTH : ℤ := 750 + 75

/-- Canvas height `1050+75` (line 170). -/
def CARD_HEIGHT : ℤ := 1050 + 75

/-- Resolution constant (line 171). -/
def DPI : ℤ := 300

/-- Margin `int(0.25 * DPI)` (line 172). -/
def MARGIN : ℤ := pyTrunc ((25 / 100) * (DPI : ℚ))

/-- The feature loop of `create_card_image`, concatenating the draw calls of
each feature in layout order; a failing feature aborts the card. -/
def renderFeatures (wM hM : FontH → String → ℤ) (avail : String → Bool)
    (card : String → Option String) : List ImageFeature → Option (List DrawOp)
  | [] => some []
  | feat :: rest => do
    let ops ← renderFeature wM hM avail CARD_WIDTH CARD_HEIGHT MARGIN card feat
    let more ← renderFeatures wM hM avail card rest
    pure (ops ++ more)

/-- `create_card_image` (lines 168-227): the canvas produced for one card,
as the sequence of draw calls composited onto the blank white canvas. -/
def create_card_image (wM hM : FontH → String → ℤ) (avail : String → Bool)
    (card : String → Option String) (features : List ImageFeature) : Option (List DrawOp) :=
  renderFeatures wM hM avail card features

/-- A CSV row as produced by `csv.DictReader`: a finite map from column name
to cell value, modelled as a lookup function. -/
def Row : Type := String → Option String

/-- Lines 28-36: build one `ImageFeature` from a row.  A missing key raises
`KeyError` and a failing conversion raises `ValueError`, both modelled as
`none`; the conversions `int()` and `float()` of the Python runtime are
abstracted as `toInt` and `toFloat`. -/
def parseFeature (toInt : String → Option ℤ) (toFloat : String → Option ℚ)
    (row : Row) : Option ImageFeature := do
  let fontV ← row "font"
  let fsRaw ← row "font_size"
  let fs ← toInt fsRaw
  let colorV ← row "text_color"
  let justV ← row "justification"
  let vpRaw ← row "vertical_pos"
  let vp ← toFloat vpRaw
  let nameV ← row "element_name"
  let rotV ← row "rotation"
  pure ⟨fontV, fs, colorV, justV, vp, nameV, rotV⟩

/-- `read_csv_to_features` (lines 23-38): parse every row in order; the
first failing row aborts the whole load. -/
def read_csv_to_features (toInt : String → Option ℤ) (toFloat : String → Option ℚ) :
    List Row → Option (List ImageFeature)
  | [] => some []
  | row :: rest => do
    let feat ← parseFeature toInt toFloat row
    let feats ← read_csv_to_features toInt toFloat rest
    pure (feat :: feats)

/-- Whether one layout row parses: all seven required columns are present
and the two numeric columns convert. -/
def rowOk (toInt : String → Option ℤ) (toFloat : String → Option ℚ) (row : Row) : Prop :=
  (row "font").isSome ∧ ((row "font_size").bind toInt).isSome ∧
  (row "text_color").isSome ∧ (row "justification").isSome ∧
  ((row "vertical_pos").bind toFloat).isSome ∧ (row "element_name").isSome ∧
  (row "rotation").isSome

/-- The driver loop of `main` (lines 243-246): render each card in file
order; a failing card aborts the run. -/
def renderAllCards (wM hM : FontH → String → ℤ) (avail : String → Bool)
    (features : List ImageFeature) : List (String → Option String) → Option (List (List DrawOp))
  | [] => some []
  | card :: rest => do
    let img ← create_card_image wM hM avail card features
    let more ← renderAllCards wM hM avail features rest
    pure (img :: more)

/-- `main` (lines 230-246): load the layout, then render every card.  The
layout load happens in full before any card is rendered. -/
def mainModel (toInt : String → Option ℤ) (toFloat : String → Option ℚ)
    (wM hM : FontH → String → ℤ) (avail : String → Bool)
    (layoutRows : List Row) (cardRows : List (String → Option String)) :
    Option (List (List DrawOp)) := do
  let features ← read_csv_to_features toInt toFloat layoutRows
  renderAllCards wM hM avail features cardRows

/-- Python `dict` update `card[k] = v`, as a lookup function. -/
def updateCard (card : String → Option String) (k v : String) : String → Option String :=
  fun k2 => if k2 = k then some v else card k2

/-- Length of a string as an integer: the simplest concrete width measure,
used to instantiate theorems at concrete inputs. -/
def lenW (s : String) : ℤ := s.length

/-- A measure giving every string the same width (or height). -/
def constMeasure (n : ℤ) : FontH → String → ℤ := fun _ _ => n

/-- A font environment in which no font file is available. -/
def noFont : String → Bool := fun _ => false

/-! ### Lemmas about the wrapping loop -/

theorem joinSp_append : ∀ g h : List String, g ≠ [] → h ≠ [] →
    joinSp (g ++ h) = joinSp g ++ " " ++ joinSp h := by
  intro g
  induction g with
  | nil => intro h hg _; exact absurd rfl hg
  | cons a g ih =>
    intro h _ hh
    cases g with
    | nil =>
      cases h with
      | nil => exact absurd rfl hh
      | cons b h => rfl
    | cons c g =>
      have h1 : joinSp ((a :: c :: g) ++ h) = a ++ " " ++ joinSp ((c :: g) ++ h) := rfl
      rw [h1, ih h (by simp) hh]
      show a ++ " " ++ (joinSp (c :: g) ++ " " ++ joinSp h) =
        (a ++ " " ++ joinSp (c :: g)) ++ " " ++ joinSp h
      simp [String.append_assoc]

theorem wrapAux_eq_map (wdt : String → ℤ) (maxW : ℤ) :
    ∀ (ws cur : List String) (gacc : List (List String)),
      wrapAux wdt maxW ws cur (gacc.map joinSp) = (wrapGroups wdt maxW ws cur gacc).map joinSp := by
  intro ws
  induction ws with
  | nil =>
    intro cur gacc
    by_cases h : cur = [] <;> simp [wrapAux, wrapGroups, h]
  | cons word rest ih =>
    intro cur gacc
    by_cases h : wdt (joinSp (cur ++ [word])) ≤ maxW
    · simp only [wrapAux, wrapGroups, if_pos h]
      exact ih (cur ++ [word]) gacc
    · simp only [wrapAux, wrapGroups, if_neg h]
      have : List.map joinSp gacc ++ [joinSp cur] = (gacc ++ [cur]).map joinSp := by simp
      rw [this]
      exact ih [word] (gacc ++ [cur])

theorem wrap_text_eq_groups (wdt : String → ℤ) (maxW : ℤ) (text : String) :
    wrap_text wdt maxW text = (wrapGroups wdt maxW (pySplit text) [] []).map joinSp := by
  have := wrapAux_eq_map wdt maxW (pySplit text) [] []
  simpa [wrap_text] using this

theorem wrapGroups_acc (wdt : String → ℤ) (maxW : ℤ) :
    ∀ (ws cur : List String) (acc : List (List String)),
      wrapGroups wdt maxW ws cur acc = acc ++ wrapGroups wdt maxW ws cur [] := by
  intro ws
  induction ws with
  | nil =>
    intro cur acc
    by_cases h : cur = [] <;> simp [wrapGroups, h]
  | cons word rest ih =>
    intro cur acc
    by_cases h : wdt (joinSp (cur ++ [word])) ≤ maxW
    · simp only [wrapGroups, if_pos h]
      exact ih (cur ++ [word]) acc
    · simp only [wrapGroups, if_neg h]
      rw [ih [word] (acc ++ [cur]), ih [word] ([] ++ [cur])]
      simp

theorem wrapGroups_ne_nil (wdt : String → ℤ) (maxW : ℤ) :
    ∀ (ws cur : List String), cur ≠ [] → wrapGroups wdt maxW ws cur [] ≠ [] := by
  intro ws
  induction ws with
  | nil => intro cur hcur; simp [wrapGroups, hcur]
  | cons word rest ih =>
    intro cur hcur
    by_cases h : wdt (joinSp (cur ++ [word])) ≤ maxW
    · simp only [wrapGroups, if_pos h]
      exact ih (cur ++ [word]) (by simp)
    · simp only [wrapGroups, if_neg h]
      rw [wrapGroups_acc]
      simp

/-- A non-blank text always wraps to at least one line. -/
theorem wrap_text_ne_nil (wdt : String → ℤ) (maxW : ℤ) (text : String)
    (hw : pySplit text ≠ []) : wrap_text wdt maxW text ≠ [] := by
  rw [wrap_text_eq_groups]
  obtain ⟨a, rest, hsplit⟩ : ∃ a rest, pySplit text = a :: rest := by
    cases h : pySplit text with
    | nil => exact absurd h hw
    | cons a rest => exact ⟨a, rest, rfl⟩
  rw [hsplit]
  by_cases h : wdt (joinSp ([] ++ [a])) ≤ maxW
  · simp only [wrapGroups, if_pos h]
    simp [wrapGroups_ne_nil wdt maxW rest [a] (by simp)]
  · simp only [wrapGroups, if_neg h]
    rw [wrapGroups_acc]
    simp

theorem joinSp_wrapGroups (wdt : String → ℤ) (maxW : ℤ) :
    ∀ (ws cur : List String), cur ≠ [] →
      joinSp ((wrapGroups wdt maxW ws cur []).map joinSp) = joinSp (cur ++ ws) := by
  intro ws
  induction ws with
  | nil =>
    intro cur hcur
    simp [wrapGroups, hcur]
    rfl
  | cons word rest ih =>
    intro cur hcur
    by_cases h : wdt (joinSp (cur ++ [word])) ≤ maxW
    · simp only [wrapGroups, if_pos h]
      rw [ih (cur ++ [word]) (by simp)]
      simp
    · simp only [wrapGroups, if_neg h]
      rw [wrapGroups_acc, List.nil_append]
      have hg : wrapGroups wdt maxW rest [word] [] ≠ [] :=
        wrapGroups_ne_nil wdt maxW rest [word] (by simp)
      have hmapne : (wrapGroups wdt maxW rest [word] []).map joinSp ≠ [] := by
        simpa using hg
      have hsplitcur : ([cur] ++ wrapGroups wdt maxW rest [word] []).map joinSp =
          [joinSp cur] ++ (wrapGroups wdt maxW rest [word] []).map joinSp := by simp
      rw [hsplitcur, joinSp_append [joinSp cur] _ (by simp) hmapne]
      rw [ih [word] (by simp)]
      rw [joinSp_append cur (word :: rest) hcur (by simp)]
      rfl

theorem wrapGroups_width_le (wdt : String → ℤ) (maxW : ℤ) :
    ∀ (ws cur : List String), (∀ a ∈ ws, wdt a ≤ maxW) →
      (cur = [] ∨ wdt (joinSp cur) ≤ maxW) →
      ∀ g ∈ wrapGroups wdt maxW ws cur [], wdt (joinSp g) ≤ maxW := by
  intro ws
  induction ws with
  | nil =>
    intro cur _ hcur g hg
    by_cases h : cur = []
    · simp [wrapGroups, h] at hg
    · simp [wrapGroups, h] at hg
      rcases hcur with hc | hc
      · exact absurd hc h
      · rw [hg]; exact hc
  | cons word rest ih =>
    intro cur hws hcur g hg
    have hword : wdt word ≤ maxW := hws word (by simp)
    have hrest : ∀ a ∈ rest, wdt a ≤ maxW := fun a ha => hws a (by simp [ha])
    by_cases h : wdt (joinSp (cur ++ [word])) ≤ maxW
    · simp only [wrapGroups, if_pos h] at hg
      exact ih (cur ++ [word]) hrest (Or.inr h) g hg
    · simp only [wrapGroups, if_neg h] at hg
      rcases hcur with hc | hc
      · rw [hc] at h
        exact absurd (by simpa using hword) (by simpa using h)
      · rw [wrapGroups_acc] at hg
        rcases List.mem_append.mp hg with hg1 | hg2
        · simp at hg1
          rw [hg1]; exact hc
        · exact ih [word] hrest (Or.inr (by simpa using hword)) g hg2

theorem wrapGroups_single (wdt : String → ℤ) (maxW : ℤ) :
    ∀ (ws cur : List String) (acc : List (List String)), cur ≠ [] →
      (∀ pre suf, ws = pre ++ suf → wdt (joinSp (cur ++ pre)) ≤ maxW) →
      wrapGroups wdt maxW ws cur acc = acc ++ [cur ++ ws] := by
  intro ws
  induction ws with
  | nil =>
    intro cur acc hcur _
    simp [wrapGroups, hcur]
  | cons word rest ih =>
    intro cur acc hcur hpre
    have hfit : wdt (joinSp (cur ++ [word])) ≤ maxW := hpre [word] rest rfl
    simp only [wrapGroups, if_pos hfit]
    rw [ih (cur ++ [word]) acc (by simp) ?_]
    · simp
    · intro pre suf hps
      have : word :: rest = (word :: pre) ++ suf := by simp [hps]
      have := hpre (word :: pre) suf this
      simpa [List.append_assoc] using this

/-- The measured width of a nonempty prefix of the word list is at most the
measured width of the whole joined string, for a measure that is monotone
under appending characters on the right. -/
theorem joinSp_prefix_le (wdt : String → ℤ)
    (hmono : ∀ s t : String, wdt s ≤ wdt (s ++ t)) :
    ∀ l1 l2 : List String, l1 ≠ [] → wdt (joinSp l1) ≤ wdt (joinSp (l1 ++ l2)) := by
  intro l1 l2 h1
  cases l2 with
  | nil => simp
  | cons b l2 =>
    rw [joinSp_append l1 (b :: l2) h1 (by simp), String.append_assoc]
    exact hmono (joinSp l1) _

/-! ### Claim C1: joining the wrapped lines reconstructs the text -/

/-- C1 counterexample: the claim that joining the lines of `wrap_text` with
single spaces always reconstructs the whitespace-normalized text is false.
With the string-length measure and `max_width = 1`, the single word `"ab"`
already exceeds the width, so the loop closes the (still empty) current line
and emits a leading empty line; the join then carries a leading space. -/
theorem wrap_join_overflow_first_word :
    wrap_text lenW 1 "ab" = ["", "ab"] ∧
    joinSp (wrap_text lenW 1 "ab") ≠ joinSp (pySplit "ab") := by
  exact ⟨by decide, by decide⟩

/-- C1 (amended): provided the first word of `text.split()` fits within
`max_width` on its own (so the loop never closes an empty current line),
joining the lines returned by `wrap_text` with single spaces reconstructs
the whitespace-normalized text: no word is dropped, duplicated, or
reordered.  When the first word alone exceeds `max_width`, `wrap_text`
additionally emits one empty line in front (see the counterexample). -/
theorem wrap_join_reconstructs (wdt : String → ℤ) (maxW : ℤ) (text : String)
    (hfirst : ∀ a l, pySplit text = a :: l → wdt a ≤ maxW) :
    joinSp (wrap_text wdt maxW text) = joinSp (pySplit text) := by
  rw [wrap_text_eq_groups]
  cases hsplit : pySplit text with
  | nil => simp [wrapGroups, joinSp]
  | cons a rest =>
    have hfit : wdt (joinSp ([] ++ [a])) ≤ maxW := by
      have := hfirst a rest hsplit
      simpa [joinSp] using this
    simp only [wrapGroups, if_pos hfit]
    have := joinSp_wrapGroups wdt maxW rest ([] ++ [a]) (by simp)
    simpa using this

/-- Witness for the amended C1 at a concrete input. -/
theorem wrap_join_reconstructs_witness :
    joinSp (wrap_text lenW 10 "a b") = joinSp (pySplit "a b") :=
  wrap_join_reconstructs lenW 10 "a b" (by
    intro a l h
    rw [show pySplit "a b" = ["a", "b"] from rfl] at h
    injection h with h1 h2
    subst h1
    decide)

/-! ### Claim C2: lines fit when every word fits -/

/-- C2: for a text whose individual words all measure at most `max_width`,
every line returned by `wrap_text` measures at most `max_width`; in
particular no line can exceed `max_width` other than a single word of the
text that alone exceeds it (under the hypothesis there is none). -/
theorem wrap_lines_fit (wdt : String → ℤ) (maxW : ℤ) (text : String)
    (hwords : ∀ a ∈ pySplit text, wdt a ≤ maxW) :
    (∀ line ∈ wrap_text wdt maxW text, wdt line ≤ maxW) ∧
    (∀ line ∈ wrap_text wdt maxW text, maxW < wdt line → line ∈ pySplit text) := by
  have hmain : ∀ line ∈ wrap_text wdt maxW text, wdt line ≤ maxW := by
    intro line hline
    rw [wrap_text_eq_groups] at hline
    obtain ⟨g, hg, rfl⟩ := List.mem_map.mp hline
    exact wrapGroups_width_le wdt maxW (pySplit text) [] hwords (Or.inl rfl) g hg
  exact ⟨hmain, fun line hl hgt => absurd (hmain line hl) (not_le.mpr hgt)⟩

/-- Witness for C2 at a concrete input. -/
theorem wrap_lines_fit_witness :
    wrap_text lenW 10 "a b" = ["a b"] ∧ lenW "a b" ≤ 10 :=
  ⟨by decide, (wrap_lines_fit lenW 10 "a b" (by decide)).1 "a b" (by decide)⟩

/-! ### Claim C3: a wholly fitting text wraps to exactly one line -/

/-- C3 counterexample: the claim that any text fitting whole within
`max_width` wraps to exactly one line equal to the normalized text is false
for the empty string (and any all-whitespace string): the normalized text
`""` fits, but `wrap_text` returns zero lines, not one. -/
theorem wrap_single_line_empty_counterexample :
    lenW (joinSp (pySplit "")) ≤ 100 ∧ wrap_text lenW 100 "" = [] ∧
    wrap_text lenW 100 "" ≠ [joinSp (pySplit "")] :=
  ⟨by decide, by decide, by decide⟩

/-- C3 (amended): for a text containing at least one word, and a width
measure monotone under appending (as a pixel width is), if the whole
normalized string fits within `max_width` then `wrap_text` returns exactly
one line equal to the whitespace-normalized text. -/
theorem wrap_single_line (wdt : String → ℤ) (maxW : ℤ) (text : String)
    (hmono : ∀ s t : String, wdt s ≤ wdt (s ++ t))
    (hne : pySplit text ≠ [])
    (hfit : wdt (joinSp (pySplit text)) ≤ maxW) :
    wrap_text wdt maxW text = [joinSp (pySplit text)] := by
  rw [wrap_text_eq_groups]
  cases hsplit : pySplit text with
  | nil => exact absurd hsplit hne
  | cons a rest =>
    rw [hsplit] at hfit
    have hprefix : ∀ pre suf, rest = pre ++ suf → wdt (joinSp ([a] ++ pre)) ≤ maxW := by
      intro pre suf hps
      have h1 : ([a] ++ pre) ++ suf = a :: rest := by simp [hps]
      calc wdt (joinSp ([a] ++ pre)) ≤ wdt (joinSp (([a] ++ pre) ++ suf)) :=
            joinSp_prefix_le wdt hmono ([a] ++ pre) suf (by simp)
        _ = wdt (joinSp (a :: rest)) := by rw [h1]
        _ ≤ maxW := hfit
    have hfita : wdt (joinSp ([] ++ [a])) ≤ maxW := by
      have := hprefix [] rest rfl
      simpa using this
    simp only [wrapGroups, if_pos hfita]
    rw [wrapGroups_single wdt maxW rest ([] ++ [a]) [] (by simp)
      (by intro pre suf hps; simpa using hprefix pre suf hps)]
    simp

/-- Witness for the amended C3 at a concrete input. -/
theorem wrap_single_line_witness :
    pySplit "a b" ≠ [] ∧ lenW (joinSp (pySplit "a b")) ≤ 10 ∧
    wrap_text lenW 10 "a b" = [joinSp (pySplit "a b")] :=
  ⟨by decide, by decide,
    wrap_single_line lenW 10 "a b"
      (fun s t => by
        show (s.length : ℤ) ≤ ((s ++ t).length : ℤ)
        rw [String.length_append]
        exact_mod_cast Nat.le_add_right s.length t.length)
      (by decide) (by decide)⟩

/-! ### Claim C4: vertical block placement -/

theorem drawLines_length (wdt : String → ℤ) (CW MG : ℤ) (just colr : String)
    (fnt : FontH) (lineH : ℤ) :
    ∀ (lines : List String) (y : ℚ),
      (drawLines wdt CW MG just colr fnt lineH lines y).length = lines.length := by
  intro lines
  induction lines with
  | nil => intro y; rfl
  | cons l rest ih => intro y; simp [drawLines, ih]

theorem drawLines_get_y (wdt : String → ℤ) (CW MG : ℤ) (just colr : String)
    (fnt : FontH) (lineH : ℤ) :
    ∀ (lines : List String) (y : ℚ) (i : ℕ) (op : DrawOp),
      (drawLines wdt CW MG just colr fnt lineH lines y)[i]? = some op →
      op.y = y + (i : ℚ) * ((lineH : ℚ) * (11 / 10)) := by
  intro lines
  induction lines with
  | nil => intro y i op h; simp [drawLines] at h
  | cons l rest ih =>
    intro y i op h
    cases i with
    | zero =>
      simp only [drawLines, List.getElem?_cons_zero] at h
      obtain rfl := Option.some.inj h
      simp
    | succ i =>
      simp only [drawLines, List.getElem?_cons_succ] at h
      rw [ih (y + (lineH : ℚ) * (11 / 10)) i op h]
      push_cast
      ring

/-- C4 (amended): for a rendered field producing `N` wrapped lines of
maximum single-line height `H`, the code places one draw call per line; the
first line's top is the `int()`-truncation of
`vertical_pos * canvas_height - (N*H*1.1)/2` (the claim omits the
truncation, see the counterexample), and each subsequent line's top
advances by exactly `H*1.1`, so line `i` sits at the truncated start plus
`i*H*1.1` and the last line at the first plus `(N-1)*H*1.1`. -/
theorem block_layout (wM hM : FontH → String → ℤ) (CW CH MG : ℤ) (vp : ℚ)
    (just colr : String) (fnt : FontH) (text : String) (lineH : ℤ) (ops : List DrawOp)
    (hmax : ((wrap_text (wM fnt) (CW - 2 * MG) text).map (hM fnt)).max? = some lineH)
    (hrun : renderFeatureWithFont wM hM CW CH MG vp just colr fnt text = some ops) :
    ops.length = (wrap_text (wM fnt) (CW - 2 * MG) text).length ∧
    ∀ (i : ℕ) (op : DrawOp), ops[i]? = some op →
      op.y = ((pyTrunc (vp * (CH : ℚ) -
          (((wrap_text (wM fnt) (CW - 2 * MG) text).length : ℚ) * (lineH : ℚ) * (11 / 10)) / 2) : ℤ) : ℚ)
        + (i : ℚ) * ((lineH : ℚ) * (11 / 10)) := by
  simp only [renderFeatureWithFont] at hrun
  rw [hmax] at hrun
  simp only [Option.map_some'] at hrun
  obtain rfl := Option.some.inj hrun.symm
  constructor
  · exact drawLines_length _ _ _ _ _ _ _ _ _
  · intro i op h
    exact drawLines_get_y _ _ _ _ _ _ _ _ _ i op h

/-- Evaluation of the text layout at a concrete input: every string measures
10 wide and 11 tall, the field text is `"Hi"`, the anchor is the canvas
middle.  One line results, whose top is `int(562.5 - 6.05) = 556`. -/
theorem renderHi_eval :
    renderFeatureWithFont (constMeasure 10) (constMeasure 11) 825 1125 75 (1 / 2)
      "center" "#000000" FontH.defaultFont "Hi" =
    some [⟨407, (556 : ℚ), "Hi", "#000000", FontH.defaultFont⟩] := by
  have hlines : wrap_text (constMeasure 10 FontH.defaultFont) (825 - 2 * 75) "Hi" = ["Hi"] := by
    decide
  simp only [renderFeatureWithFont]
  rw [hlines]
  have hmax : ((["Hi"] : List String).map (constMeasure 11 FontH.defaultFont)).max? =
      some 11 := by decide
  rw [hmax]
  simp only [Option.map_some', drawLines]
  have hx : justifyX 825 75 (constMeasure 10 FontH.defaultFont "Hi") "center" = 407 := by decide
  have hy : pyTrunc ((1 / 2 : ℚ) * ((1125 : ℤ) : ℚ) -
      ((([("Hi" : String)].length : ℕ) : ℚ) * ((11 : ℤ) : ℚ) * (11 / 10)) / 2) = 556 := by
    norm_num [pyTrunc]
    decide
  rw [hx, hy]
  norm_num

/-- C4 counterexample: the claim states the first line's top y-coordinate is
exactly `vertical_pos*canvas_height - (N*H*1.1)/2`, but the code truncates
that quantity with `int()`.  With `N = 1`, `H = 11`, `vertical_pos = 0.5`
and the canvas height 1125, the exact value is `556.45` while the code
places the line at `556`. -/
theorem block_top_truncation_counterexample :
    (renderFeatureWithFont (constMeasure 10) (constMeasure 11) 825 1125 75 (1 / 2)
        "center" "#000000" FontH.defaultFont "Hi").map (List.map DrawOp.y) =
      some [(556 : ℚ)] ∧
    (556 : ℚ) ≠ (1 / 2 : ℚ) * 1125 - ((1 : ℚ) * 11 * (11 / 10)) / 2 := by
  constructor
  · rw [renderHi_eval]
    rfl
  · norm_num

/-- Witness for the amended C4 at a concrete input. -/
theorem block_layout_witness :
    ([(⟨407, (556 : ℚ), "Hi", "#000000", FontH.defaultFont⟩ : DrawOp)]).length =
      (wrap_text (constMeasure 10 FontH.defaultFont) (825 - 2 * 75) "Hi").length :=
  (block_layout (constMeasure 10) (constMeasure 11) 825 1125 75 (1 / 2) "center" "#000000"
    FontH.defaultFont "Hi" 11 _ (by decide) renderHi_eval).1

/-! ### Claim C5: per-line justification -/

/-- C5: each line's x position depends only on its own measured width:
`left` anchors at the margin, `right` at `canvas_width - line_width -
margin`, `center` at `(canvas_width - line_width) // 2` (Python floor
division), any other value falls back to left, and the comparison
lowercases the value first; with canvas width 750, margin 30 and line width
100 this gives 30, 620 and 325. -/
theorem justification_rules :
    (∀ CW MG tw : ℤ, justifyX CW MG tw "center" = Int.fdiv (CW - tw) 2) ∧
    (∀ CW MG tw : ℤ, justifyX CW MG tw "right" = CW - tw - MG) ∧
    (∀ CW MG tw : ℤ, justifyX CW MG tw "left" = MG) ∧
    (∀ (CW MG tw : ℤ) (j : String), strLower j ≠ "center" → strLower j ≠ "right" →
      justifyX CW MG tw j = MG) ∧
    justifyX 750 30 100 "left" = 30 ∧ justifyX 750 30 100 "right" = 620 ∧
    justifyX 750 30 100 "center" = 325 ∧ justifyX 750 30 100 "CeNtEr" = 325 ∧
    justifyX 750 30 100 "RIGHT" = 620 ∧ justifyX 750 30 100 "justified" = 30 := by
  refine ⟨fun CW MG tw => rfl, fun CW MG tw => rfl, fun CW MG tw => rfl,
    fun CW MG tw j h1 h2 => ?_, by decide, by decide, by decide, by decide, by decide, by decide⟩
  simp [justifyX, h1, h2]

/-- Witness for C5's fallback clause at a concrete input. -/
theorem justification_rules_witness :
    strLower "banana" ≠ "center" ∧ strLower "banana" ≠ "right" ∧ justifyX 5 7 9 "banana" = 7 :=
  ⟨by decide, by decide,
    justification_rules.2.2.2.1 5 7 9 "banana" (by decide) (by decide)⟩

/-! ### Claim C6: an absent field renders like an empty field -/

/-- C6: a card in which a placement's source field is absent produces a
canvas identical to the same card with that field mapped to `""`: the
whole-card draw sequences agree, and for any placement sourcing that field
both cards skip it with no draw calls and no error. -/
theorem absent_field_matches_empty (wM hM : FontH → String → ℤ) (avail : String → Bool)
    (features : List ImageFeature) (card : String → Option String) (fname : String)
    (habs : card fname = none) :
    create_card_image wM hM avail (updateCard card fname "") features =
      create_card_image wM hM avail card features ∧
    ∀ feat : ImageFeature, feat.element_name = fname →
      renderFeature wM hM avail CARD_WIDTH CARD_HEIGHT MARGIN card feat = some [] ∧
      renderFeature wM hM avail CARD_WIDTH CARD_HEIGHT MARGIN
        (updateCard card fname "") feat = some [] := by
  have hfeat : ∀ (CW CH MG : ℤ) (feat : ImageFeature),
      renderFeature wM hM avail CW CH MG (updateCard card fname "") feat =
        renderFeature wM hM avail CW CH MG card feat := by
    intro CW CH MG feat
    by_cases h : feat.element_name = fname
    · simp [renderFeature, updateCard, h, habs]
    · simp [renderFeature, updateCard, h]
  constructor
  · induction features with
    | nil => rfl
    | cons feat rest ih =>
      simp only [create_card_image, renderFeatures] at ih ⊢
      rw [hfeat CARD_WIDTH CARD_HEIGHT MARGIN feat, ih]
  · intro feat hname
    refine ⟨?_, ?_⟩
    · simp [renderFeature, hname, habs]
    · simp [renderFeature, updateCard, hname, habs]

/-- Witness for C6 at a concrete input. -/
theorem absent_field_matches_empty_witness :
    create_card_image (constMeasure 10) (constMeasure 11) noFont
        (updateCard (fun _ => none) "title" "")
        [⟨"arial", 40, "#000000", "center", 1 / 2, "title", "0"⟩] =
      create_card_image (constMeasure 10) (constMeasure 11) noFont (fun _ => none)
        [⟨"arial", 40, "#000000", "center", 1 / 2, "title", "0"⟩] :=
  (absent_field_matches_empty (constMeasure 10) (constMeasure 11) noFont
    [⟨"arial", 40, "#000000", "center", 1 / 2, "title", "0"⟩] (fun _ => none) "title" rfl).1

/-! ### Claim C7: reachability of the empty-content failure -/

/-- C7 counterexample: the claim holds that for every non-empty text value
the wrapped-line list is non-empty, so the `max()` over line heights cannot
fail.  It is false: a whitespace-only value such as `" "` is non-empty (so
the `if not text` skip does not fire) yet splits into zero words, `wrap_text`
returns `[]`, and the `max()` call fails (modelled as `none`). -/
theorem whitespace_text_fails :
    (" " : String) ≠ "" ∧
    wrap_text (constMeasure 10 FontH.defaultFont) (825 - 2 * 75) " " = [] ∧
    renderFeature (constMeasure 10) (constMeasure 11) noFont 825 1125 75
      (fun k => if k = "title" then some " " else none)
      ⟨"arial", 40, "#000000", "center", 1 / 2, "title", "0"⟩ = none :=
  ⟨by decide, by decide, by decide⟩

/-- C7 (amended): for a text value containing at least one non-whitespace
word, the wrapped-line list is non-empty and the max-line-height
computation succeeds, so the field renders without the empty-content
failure. -/
theorem nonblank_text_renders (wM hM : FontH → String → ℤ) (avail : String → Bool)
    (CW CH MG : ℤ) (card : String → Option String) (feat : ImageFeature) (t : String)
    (hlook : card feat.element_name = some t) (hw : pySplit t ≠ []) :
    wrap_text (wM (loadFont avail feat)) (CW - 2 * MG) t ≠ [] ∧
    (renderFeature wM hM avail CW CH MG card feat).isSome := by
  have htne : t ≠ "" := by
    intro h
    rw [h] at hw
    exact hw rfl
  have hlines := wrap_text_ne_nil (wM (loadFont avail feat)) (CW - 2 * MG) t hw
  refine ⟨hlines, ?_⟩
  simp only [renderFeature, hlook, Option.getD_some, if_neg htne, renderFeatureWithFont]
  cases hmap : ((wrap_text (wM (loadFont avail feat)) (CW - 2 * MG) t).map
      (hM (loadFont avail feat))).max? with
  | none =>
    rw [List.max?_eq_none_iff] at hmap
    exact absurd (List.map_eq_nil_iff.mp hmap) hlines
  | some lineH => simp [hmap]

/-- Witness for the amended C7 at a concrete input. -/
theorem nonblank_text_renders_witness :
    wrap_text (constMeasure 10 (loadFont noFont
        ⟨"arial", 40, "#000000", "center", 1 / 2, "title", "0"⟩)) (825 - 2 * 75) "hi" ≠ [] ∧
    (renderFeature (constMeasure 10) (constMeasure 11) noFont 825 1125 75
      (fun k => if k = "title" then some "hi" else none)
      ⟨"arial", 40, "#000000", "center", 1 / 2, "title", "0"⟩).isSome :=
  nonblank_text_renders (constMeasure 10) (constMeasure 11) noFont 825 1125 75
    (fun k => if k = "title" then some "hi" else none)
    ⟨"arial", 40, "#000000", "center", 1 / 2, "title", "0"⟩ "hi" rfl (by decide)

/-! ### Claim C8: font fallback -/

/-- C8: when the placement's font file is unavailable, the loader yields the
built-in default font and rendering proceeds exactly as it would with the
default font: the failed load is absorbed, and neither the card render nor
the run is aborted by it. -/
theorem font_fallback (wM hM : FontH → String → ℤ) (avail : String → Bool)
    (CW CH MG : ℤ) (card : String → Option String) (feat : ImageFeature)
    (hmiss : avail (fontPath feat.font) = false) :
    loadFont avail feat = FontH.defaultFont ∧
    renderFeature wM hM avail CW CH MG card feat =
      (if (card feat.element_name).getD "" = "" then some []
       else renderFeatureWithFont wM hM CW CH MG feat.vertical_pos feat.justification
         feat.text_color FontH.defaultFont ((card feat.element_name).getD "")) := by
  have hload : loadFont avail feat = FontH.defaultFont := by
    simp [loadFont, hmiss]
  exact ⟨hload, by simp only [renderFeature, hload]⟩

/-- Witness for C8 at a concrete input. -/
theorem font_fallback_witness :
    noFont (fontPath "arial") = false ∧
    loadFont noFont ⟨"arial", 40, "#000000", "center", 1 / 2, "title", "0"⟩ =
      FontH.defaultFont :=
  ⟨rfl, (font_fallback (constMeasure 10) (constMeasure 11) noFont 825 1125 75
    (fun _ => none) ⟨"arial", 40, "#000000", "center", 1 / 2, "title", "0"⟩ rfl).1⟩

/-! ### Claim C9: layout loading fails exactly on malformed rows -/

theorem parseFeature_isSome_iff (toInt : String → Option ℤ) (toFloat : String → Option ℚ)
    (row : Row) :
    (parseFeature toInt toFloat row).isSome ↔ rowOk toInt toFloat row := by
  cases h1 : row "font" with
  | none => simp [parseFeature, rowOk, h1]
  | some fontV =>
  cases h2 : row "font_size" with
  | none => simp [parseFeature, rowOk, h1, h2]
  | some fsRaw =>
  cases h3 : toInt fsRaw with
  | none => simp [parseFeature, rowOk, h1, h2, h3]
  | some fs =>
  cases h4 : row "text_color" with
  | none => simp [parseFeature, rowOk, h1, h2, h3, h4]
  | some colorV =>
  cases h5 : row "justification" with
  | none => simp [parseFeature, rowOk, h1, h2, h3, h4, h5]
  | some justV =>
  cases h6 : row "vertical_pos" with
  | none => simp [parseFeature, rowOk, h1, h2, h3, h4, h5, h6]
  | some vpRaw =>
  cases h7 : toFloat vpRaw with
  | none => simp [parseFeature, rowOk, h1, h2, h3, h4, h5, h6, h7]
  | some vp =>
  cases h8 : row "element_name" with
  | none => simp [parseFeature, rowOk, h1, h2, h3, h4, h5, h6, h7, h8]
  | some nameV =>
  cases h9 : row "rotation" with
  | none => simp [parseFeature, rowOk, h1, h2, h3, h4, h5, h6, h7, h8, h9]
  | some rotV => simp [parseFeature, rowOk, h1, h2, h3, h4, h5, h6, h7, h8, h9]

theorem read_csv_to_features_isSome_iff (toInt : String → Option ℤ)
    (toFloat : String → Option ℚ) :
    ∀ rows : List Row, (read_csv_to_features toInt toFloat rows).isSome ↔
      ∀ row ∈ rows, rowOk toInt toFloat row := by
  intro rows
  induction rows with
  | nil => simp [read_csv_to_features]
  | cons row rest ih =>
    simp only [read_csv_to_features]
    constructor
    · intro h
      cases hp : parseFeature toInt toFloat row with
      | none => rw [hp] at h; simp at h
      | some feat =>
        rw [hp] at h
        cases hr : read_csv_to_features toInt toFloat rest with
        | none => rw [hr] at h; simp at h
        | some feats =>
          intro r hmemc
          rcases List.mem_cons.mp hmemc with rfl | hmem
          · exact (parseFeature_isSome_iff toInt toFloat r).mp (by simp [hp])
          · exact (ih.mp (by simp [hr])) r hmem
    · intro h
      have h1 : (parseFeature toInt toFloat row).isSome :=
        (parseFeature_isSome_iff toInt toFloat row).mpr (h row (by simp))
      have h2 : (read_csv_to_features toInt toFloat rest).isSome :=
        ih.mpr (fun r hr => h r (by simp [hr]))
      obtain ⟨feat, hp⟩ := Option.isSome_iff_exists.mp h1
      obtain ⟨feats, hrr⟩ := Option.isSome_iff_exists.mp h2
      simp [hp, hrr]

/-- C9: the layout loader fails exactly when some row lacks one of the seven
required columns or one of the two numeric columns fails its conversion
(no missing column is defaulted); and when it fails, the whole run produces
nothing — the failure precedes the rendering of any card. -/
theorem layout_load_failure (toInt : String → Option ℤ) (toFloat : String → Option ℚ)
    (wM hM : FontH → String → ℤ) (avail : String → Bool)
    (layoutRows : List Row) (cardRows : List (String → Option String)) :
    (read_csv_to_features toInt toFloat layoutRows = none ↔
      ∃ row ∈ layoutRows, ¬ rowOk toInt toFloat row) ∧
    (read_csv_to_features toInt toFloat layoutRows = none →
      mainModel toInt toFloat wM hM avail layoutRows cardRows = none) := by
  constructor
  · rw [← Option.not_isSome_iff_eq_none, read_csv_to_features_isSome_iff]
    push_neg
    simp
  · intro h
    simp [mainModel, h]

/-- Witness for C9's propagation clause at a concrete input: a layout row
with no columns at all aborts the run with no cards rendered. -/
theorem layout_load_failure_witness :
    mainModel (fun _ => none) (fun _ => none) (constMeasure 10) (constMeasure 11) noFont
      [fun _ => none] [fun _ => none] = none :=
  (layout_load_failure (fun _ => none) (fun _ => none) (constMeasure 10) (constMeasure 11)
    noFont [fun _ => none] [fun _ => none]).2 rfl

/-! ### Claim C10: rotation never influences the rendered canvas -/

/-- Two layout rows that agree on every column except `rotation`. -/
def featEqExceptRot (a b : ImageFeature) : Prop :=
  a.font = b.font ∧ a.font_size = b.font_size ∧ a.text_color = b.text_color ∧
  a.justification = b.justification ∧ a.vertical_pos = b.vertical_pos ∧
  a.element_name = b.element_name

theorem renderFeature_rot_congr (wM hM : FontH → String → ℤ) (avail : String → Bool)
    (CW CH MG : ℤ) (card : String → Option String) (a b : ImageFeature)
    (h : featEqExceptRot a b) :
    renderFeature wM hM avail CW CH MG card a = renderFeature wM hM avail CW CH MG card b := by
  obtain ⟨h1, h2, h3, h4, h5, h6⟩ := h
  cases a
  cases b
  dsimp at h1 h2 h3 h4 h5 h6
  subst h1
  subst h2
  subst h3
  subst h4
  subst h5
  subst h6
  rfl

/-- C10: the rendered canvas does not depend on the rotation column: two
layouts identical except in their rotation values produce identical draw
sequences for every card (rotation is loaded but never used). -/
theorem rotation_independent (wM hM : FontH → String → ℤ) (avail : String → Bool)
    (card : String → Option String) (fs1 fs2 : List ImageFeature)
    (h : List.Forall₂ featEqExceptRot fs1 fs2) :
    create_card_image wM hM avail card fs1 = create_card_image wM hM avail card fs2 := by
  induction h with
  | nil => rfl
  | cons hab htail ih =>
    simp only [create_card_image, renderFeatures] at ih ⊢
    rw [renderFeature_rot_congr wM hM avail CARD_WIDTH CARD_HEIGHT MARGIN card _ _ hab, ih]

/-- Witness for C10 at a concrete input: two one-row layouts differing only
in rotation render the same canvas. -/
theorem rotation_independent_witness :
    create_card_image (constMeasure 10) (constMeasure 11) noFont (fun _ => none)
      [⟨"arial", 40, "#000000", "center", 1 / 2, "title", "0"⟩] =
    create_card_image (constMeasure 10) (constMeasure 11) noFont (fun _ => none)
      [⟨"arial", 40, "#000000", "center", 1 / 2, "title", "90"⟩] :=
  rotation_independent (constMeasure 10) (constMeasure 11) noFont (fun _ => none) _ _
    (List.Forall₂.cons ⟨rfl, rfl, rfl, rfl, rfl, rfl⟩ List.Forall₂.nil)

end CardMaker
